import Mathlib

/-!
Verification of the Pulse video upload/streaming backend core against its
specification.  Each section shallowly embeds one service of the backend
(sensitivity scorer, transcode pipeline, job queue, streaming responder)
as executable Lean definitions translated from the JavaScript source, and
proves the specified properties about them.

Numeric conventions: JavaScript numbers are modelled as exact rationals
(ℚ) where fractional thresholds occur, and as Nat/Int for byte counts and
indices.  `Math.floor` on a rational is `Int.floor`.
-/

namespace Pulse

section
attribute [local semireducible] Rat.mul Rat.inv Rat.add Rat.sub Rat.ofScientific

/-! ### Sensitivity scorer (backend/src/services/sensitivity.service.js)

A frame sample's analysis: brightness and skin-tone heuristic, both in
[0,1] (the bounds are not needed for the scoring algebra). -/

structure FrameAnalysis where
  brightness : ℚ
  skinTone : ℚ
deriving DecidableEq

/-- THRESHOLDS.BRIGHTNESS.MIN from the source. -/
def BRIGHTNESS_MIN : ℚ := 2/10

/-- THRESHOLDS.BRIGHTNESS.MAX from the source. -/
def BRIGHTNESS_MAX : ℚ := 9/10

/-- THRESHOLDS.FLAG_THRESHOLD from the source. -/
def FLAG_THRESHOLD : ℚ := 6/10

/-- The per-frame score accumulated inside `calculateSensitivityScore`:
0.3 for a brightness anomaly plus skinTone * 0.7 when skinTone > 0.4. -/
def frameScore (analysis : FrameAnalysis) : ℚ :=
  (if analysis.brightness < BRIGHTNESS_MIN ∨ analysis.brightness > BRIGHTNESS_MAX
    then 3/10 else 0) +
  (if analysis.skinTone > 4/10 then analysis.skinTone * (7/10) else 0)

/-- `calculateSensitivityScore` from the source: average per-frame score
plus 0.3 times the ratio of frames whose score exceeds 0.5, capped at 1. -/
def calculateSensitivityScore (frameAnalyses : List FrameAnalysis) : ℚ :=
  if frameAnalyses.length = 0 then 0
  else
    let totalScore := (frameAnalyses.map frameScore).sum
    let flaggedFrames := (frameAnalyses.filter (fun a => frameScore a > 5/10)).length
    let averageScore := totalScore / frameAnalyses.length
    let flaggedRatio := (flaggedFrames : ℚ) / frameAnalyses.length
    min (averageScore + flaggedRatio * (3/10)) 1

/-- The result record returned by `processSensitivityCheck`
(`details` flattened to the two counters the spec talks about). -/
structure SensResult where
  flagged : Bool
  level : String
  confidence : ℚ
  score : ℚ
  framesAnalyzed : Nat
  flaggedFrames : Nat
deriving DecidableEq

/-- The safe default result returned both when zero frames are extracted
and from the top-level catch block of `processSensitivityCheck`. -/
def safeSensResult : SensResult :=
  { flagged := false, level := ("low"), confidence := 0, score := 0,
    framesAnalyzed := 0, flaggedFrames := 0 }

/-- `processSensitivityCheck` from the source, with its interaction with
the external media engine abstracted into two parameters: `engineOk` is
false when frame extraction (or any other step inside the `try` block)
throws — the catch block then returns the safe default — and
`frameAnalyses` is the list of per-frame analyses obtained (frames whose
individual analysis threw are already skipped by the source loop). -/
def processSensitivityCheck (engineOk : Bool) (frameAnalyses : List FrameAnalysis) :
    SensResult :=
  if engineOk = false then safeSensResult
  else if frameAnalyses.length = 0 then safeSensResult
  else
    let score := calculateSensitivityScore frameAnalyses
    let flagged := decide (score > FLAG_THRESHOLD)
    let level := if score > 8/10 then ("high")
      else if score > 5/10 then ("medium") else ("low")
    let flaggedFrames := (frameAnalyses.filter (fun a => frameScore a > 5/10)).length
    { flagged := flagged, level := level, confidence := score, score := score,
      framesAnalyzed := frameAnalyses.length, flaggedFrames := flaggedFrames }

/-- C1: the sensitivity scorer computes each per-frame score as 0.3 when the
frame's brightness lies outside the band [0.2, 0.9] (else 0), plus
0.7 × skinTone when skinTone > 0.4 (else 0); the overall score is the mean
per-frame score plus 0.3 × (fraction of frames whose per-frame score exceeds
0.5), capped at 1.0; the result is flagged iff the overall score > 0.6, with
level "high" if score > 0.8, "medium" if score > 0.5, else "low"; and when
zero frames are sampled the scorer returns the safe default
flagged=false, level="low", confidence=0. -/
theorem sensitivity_score_spec (fs : List FrameAnalysis) (hne : fs ≠ []) :
    (∀ a ∈ fs, frameScore a =
      (if a.brightness < 2/10 ∨ a.brightness > 9/10 then (3 : ℚ)/10 else 0) +
      (if a.skinTone > 4/10 then (7 : ℚ)/10 * a.skinTone else 0)) ∧
    calculateSensitivityScore fs =
      min ((fs.map frameScore).sum / fs.length
        + (3 : ℚ)/10 * (((fs.filter fun a => frameScore a > 5/10).length : ℚ) / fs.length)) 1 ∧
    ((processSensitivityCheck true fs).flagged ↔ calculateSensitivityScore fs > 6/10) ∧
    (processSensitivityCheck true fs).level =
      (if calculateSensitivityScore fs > 8/10 then ("high")
        else if calculateSensitivityScore fs > 5/10 then ("medium") else ("low")) ∧
    (processSensitivityCheck true fs).confidence = calculateSensitivityScore fs ∧
    (∀ engineOk, processSensitivityCheck engineOk ([]) = safeSensResult) ∧
    (safeSensResult.flagged = false ∧ safeSensResult.level = ("low") ∧
      safeSensResult.confidence = 0) := by
  have hlen : fs.length ≠ 0 := by simpa using hne
  refine ⟨?_, ?_, ?_, ?_, ?_, ?_, ?_⟩
  · intro a _
    unfold frameScore BRIGHTNESS_MIN BRIGHTNESS_MAX
    split_ifs <;> ring
  · unfold calculateSensitivityScore
    rw [if_neg hlen, mul_comm]
  · unfold processSensitivityCheck
    simp [hlen, FLAG_THRESHOLD]
  · unfold processSensitivityCheck
    simp [hlen]
  · unfold processSensitivityCheck
    simp [hlen]
  · intro engineOk
    unfold processSensitivityCheck
    cases engineOk <;> simp
  · exact ⟨rfl, rfl, rfl⟩

/-- Witness for C1 at the single-frame list [⟨brightness 1/2, skinTone 1/2⟩]. -/
theorem sensitivity_score_spec_witness :
    ([(⟨1/2, 1/2⟩ : FrameAnalysis)] ≠ []) ∧
    ((∀ a ∈ [(⟨1/2, 1/2⟩ : FrameAnalysis)], frameScore a =
      (if a.brightness < 2/10 ∨ a.brightness > 9/10 then (3 : ℚ)/10 else 0) +
      (if a.skinTone > 4/10 then (7 : ℚ)/10 * a.skinTone else 0)) ∧
    calculateSensitivityScore [(⟨1/2, 1/2⟩ : FrameAnalysis)] =
      min (([(⟨1/2, 1/2⟩ : FrameAnalysis)].map frameScore).sum / (1 : ℚ)
        + (3 : ℚ)/10 * ((([(⟨1/2, 1/2⟩ : FrameAnalysis)].filter
            fun a => frameScore a > 5/10).length : ℚ) / (1 : ℚ))) 1 ∧
    ((processSensitivityCheck true [(⟨1/2, 1/2⟩ : FrameAnalysis)]).flagged ↔
      calculateSensitivityScore [(⟨1/2, 1/2⟩ : FrameAnalysis)] > 6/10) ∧
    (processSensitivityCheck true [(⟨1/2, 1/2⟩ : FrameAnalysis)]).level =
      (if calculateSensitivityScore [(⟨1/2, 1/2⟩ : FrameAnalysis)] > 8/10 then ("high")
        else if calculateSensitivityScore [(⟨1/2, 1/2⟩ : FrameAnalysis)] > 5/10
          then ("medium") else ("low")) ∧
    (processSensitivityCheck true [(⟨1/2, 1/2⟩ : FrameAnalysis)]).confidence =
      calculateSensitivityScore [(⟨1/2, 1/2⟩ : FrameAnalysis)] ∧
    (∀ engineOk, processSensitivityCheck engineOk ([]) = safeSensResult) ∧
    (safeSensResult.flagged = false ∧ safeSensResult.level = ("low") ∧
      safeSensResult.confidence = 0)) :=
  ⟨by decide, by
    have h := sensitivity_score_spec [(⟨1/2, 1/2⟩ : FrameAnalysis)] (by decide)
    simpa using h⟩

/-- C8: for a non-empty list of frame analyses in which no per-frame score
exceeds 0.5, the flaggedFrames count is 0, and the overall flagged
classification is false whenever the mean per-frame score is ≤ 0.6. -/
theorem no_flagged_frames_not_flagged (fs : List FrameAnalysis) (hne : fs ≠ [])
    (hall : ∀ a ∈ fs, frameScore a ≤ 5/10) :
    (processSensitivityCheck true fs).flaggedFrames = 0 ∧
    ((fs.map frameScore).sum / fs.length ≤ 6/10 →
      (processSensitivityCheck true fs).flagged = false) := by
  have hlen : fs.length ≠ 0 := by simpa using hne
  have hfilter : fs.filter (fun a => frameScore a > 5/10) = [] := by
    rw [List.filter_eq_nil_iff]
    intro a ha
    simpa using not_lt.mpr (hall a ha)
  constructor
  · unfold processSensitivityCheck
    simp [hlen, hfilter]
  · intro hmean
    have hscore : calculateSensitivityScore fs ≤ 6/10 := by
      unfold calculateSensitivityScore
      rw [if_neg hlen, hfilter]
      simp only [List.length_nil, Nat.cast_zero, zero_div, zero_mul, add_zero]
      exact le_trans (min_le_left _ _) hmean
    unfold processSensitivityCheck
    simp only [Bool.true_eq_false, if_false, hlen, if_neg hlen]
    simp [FLAG_THRESHOLD, not_lt.mpr hscore]

/-- Witness for C8 at the single-frame list [⟨1/2, 1/10⟩] (frame score 0). -/
theorem no_flagged_frames_not_flagged_witness :
    (([(⟨1/2, 1/10⟩ : FrameAnalysis)] : List FrameAnalysis) ≠ []) ∧
    (∀ a ∈ [(⟨1/2, 1/10⟩ : FrameAnalysis)], frameScore a ≤ 5/10) ∧
    ((processSensitivityCheck true [(⟨1/2, 1/10⟩ : FrameAnalysis)]).flaggedFrames = 0 ∧
    (([(⟨1/2, 1/10⟩ : FrameAnalysis)].map frameScore).sum /
        ([(⟨1/2, 1/10⟩ : FrameAnalysis)].length : ℚ) ≤ 6/10 →
      (processSensitivityCheck true [(⟨1/2, 1/10⟩ : FrameAnalysis)]).flagged = false)) :=
  ⟨by decide, by decide,
    no_flagged_frames_not_flagged [(⟨1/2, 1/10⟩ : FrameAnalysis)] (by decide) (by decide)⟩

/-! ### Media records (backend/src/models/Video.js)

The status enum of the Video model, and the record fields the core
services read and write.  File paths are opaque ids plus an extension
(the part `path.extname` extracts). -/

inductive VStatus where
  | uploaded
  | processing
  | safe
  | flagged
  | ready
  | failed
deriving DecidableEq

structure FPath where
  id : Nat
  ext : String
deriving DecidableEq

structure VideoRec where
  tenantId : Nat
  status : VStatus
  processedFilePath : Option FPath
  thumbnailPath : Option FPath
  originalFilePath : Option FPath
  mimeType : Option String
  sensitivityLevel : Option String
  duration : Option Nat
  processingProgress : Nat
deriving DecidableEq

/-! ### Delayed ready promotion
(backend/src/services/videoProcessing.service.js, lines 132–139)

The setTimeout callback re-fetches the record (`current` is its state at
the time the delay fires, `none` when the record no longer exists) and
writes status `ready` only when the current status is still safe or
flagged.  The returned value is the record written back, or `none` when
nothing is written. -/

def promoteToReady (current : Option VideoRec) : Option VideoRec :=
  match current with
  | none => none
  | some v =>
    if v.status = VStatus.safe ∨ v.status = VStatus.flagged then
      some { v with status := VStatus.ready }
    else none

theorem promoteToReady_some (v : VideoRec) :
    promoteToReady (some v) =
      (if v.status = VStatus.safe ∨ v.status = VStatus.flagged then
        some { v with status := VStatus.ready }
      else none) := rfl

/-- C9: the delayed promotion writes `ready` only if the record's current
status at the time the delay fires is still `safe` or `flagged`; a record
whose status has meanwhile become `failed` is never overwritten to
`ready`. -/
theorem delayed_ready_promotion (current : Option VideoRec) :
    (∀ w, promoteToReady current = some w → w.status = VStatus.ready ∧
      ∃ v, current = some v ∧ (v.status = VStatus.safe ∨ v.status = VStatus.flagged)) ∧
    (∀ v, current = some v → v.status = VStatus.failed → promoteToReady current = none) := by
  constructor
  · intro w hw
    match current with
    | none => simp [promoteToReady] at hw
    | some v =>
      rw [promoteToReady_some] at hw
      by_cases h : v.status = VStatus.safe ∨ v.status = VStatus.flagged
      · rw [if_pos h] at hw
        cases hw
        exact ⟨rfl, v, rfl, h⟩
      · rw [if_neg h] at hw
        exact absurd hw (by simp)
  · intro v hv hfail
    subst hv
    rw [promoteToReady_some, if_neg]
    rw [hfail]
    simp

/-- A record observed in status `failed` when the promotion delay fires
(used as the C9 witness input). -/
def failedAtDelay : VideoRec :=
  { tenantId := 1, status := VStatus.failed, processedFilePath := none,
    thumbnailPath := none, originalFilePath := none, mimeType := none,
    sensitivityLevel := none, duration := none, processingProgress := 0 }

/-- Witness for C9: a record that has meanwhile failed is not promoted. -/
theorem delayed_ready_promotion_witness :
    promoteToReady (some failedAtDelay) = none :=
  (delayed_ready_promotion (some failedAtDelay)).2 failedAtDelay rfl rfl

/-! ### Job queue (backend/src/services/processingQueue.service.js)

State: the FIFO `processingQueue`, the `isProcessing` flag together with
`currentVideoId` (modelled as `running : Option Nat` — `isProcessing` is
`running.isSome`), plus a history `started` recording, in order, each job
handed to `processVideo`.  Transitions (`addToQueue`, and the end of one
worker iteration) are driven by an action trace.  The `setImmediate`
deferral of `processNext` in the source's `finally` block is collapsed
into the completion transition: in the single-threaded execution model an
enqueue arriving between the two still observes `isProcessing = false`
and starts the queue head itself, producing the same start order. -/

structure QueueState where
  queue : List Nat
  running : Option Nat
  started : List Nat
deriving DecidableEq

inductive QAction where
  | enqueue (videoId : Nat)
  | finish (ok : Bool)
deriving DecidableEq

/-- `processNext` from the source: returns immediately when busy or the
queue is empty, otherwise shifts the queue head and starts it. -/
def startNext (s : QueueState) : QueueState :=
  match s.running with
  | some _ => s
  | none =>
    match s.queue with
    | [] => s
    | v :: rest => { queue := rest, running := some v, started := s.started ++ [v] }

/-- `addToQueue` from the source: push, then start the worker if idle. -/
def addToQueue (s : QueueState) (videoId : Nat) : QueueState :=
  let s1 : QueueState := { s with queue := s.queue ++ [videoId] }
  match s.running with
  | none => startNext s1
  | some _ => s1

/-- End of one worker iteration (the `finally` block): clear the busy
flag and, if jobs remain, advance to the next one.  The success flag of
the finished job is not consulted — the catch block only emits
notifications. -/
def finishCurrent (s : QueueState) (_ok : Bool) : QueueState :=
  match s.running with
  | none => s
  | some _ => startNext { s with running := none }

def qstep (s : QueueState) (a : QAction) : QueueState :=
  match a with
  | QAction.enqueue v => addToQueue s v
  | QAction.finish ok => finishCurrent s ok

def qinit : QueueState := { queue := [], running := none, started := [] }

def qrun (tr : List QAction) : QueueState := tr.foldl qstep qinit

/-- The ids enqueued by a trace, in order. -/
def enqueuedOf (tr : List QAction) : List Nat :=
  tr.filterMap fun a =>
    match a with
    | QAction.enqueue v => some v
    | QAction.finish _ => none

theorem enqueuedOf_cons (a : QAction) (tr : List QAction) :
    enqueuedOf (a :: tr) = enqueuedOf [a] ++ enqueuedOf tr := by
  cases a <;> simp [enqueuedOf]

theorem qstep_preserves (s : QueueState) (a : QAction)
    (hidle : s.running = none → s.queue = []) :
    (qstep s a).started ++ (qstep s a).queue =
      s.started ++ s.queue ++ enqueuedOf [a] ∧
    ((qstep s a).running = none → (qstep s a).queue = []) := by
  cases a with
  | enqueue v =>
    cases hrun : s.running with
    | none =>
      have hq : s.queue = [] := hidle hrun
      simp [qstep, addToQueue, startNext, hrun, hq, enqueuedOf]
    | some w =>
      simp [qstep, addToQueue, startNext, hrun, enqueuedOf, List.append_assoc]
  | finish ok =>
    cases hrun : s.running with
    | none =>
      simp [qstep, finishCurrent, hrun, enqueuedOf, hidle hrun]
    | some w =>
      cases hq : s.queue with
      | nil => simp [qstep, finishCurrent, startNext, hrun, hq, enqueuedOf]
      | cons x rest => simp [qstep, finishCurrent, startNext, hrun, hq, enqueuedOf]

theorem qrun_aux (tr : List QAction) (s : QueueState)
    (hidle : s.running = none → s.queue = []) :
    (tr.foldl qstep s).started ++ (tr.foldl qstep s).queue =
      s.started ++ s.queue ++ enqueuedOf tr ∧
    ((tr.foldl qstep s).running = none → (tr.foldl qstep s).queue = []) := by
  induction tr generalizing s with
  | nil => simpa [enqueuedOf] using hidle
  | cons a tr ih =>
    have h1 := qstep_preserves s a hidle
    have h2 := ih (qstep s a) h1.2
    refine ⟨?_, h2.2⟩
    rw [List.foldl_cons] at *
    rw [h2.1, h1.1, enqueuedOf_cons a tr]
    simp only [List.append_assoc, enqueuedOf, List.filterMap_nil, List.nil_append,
      List.append_nil]

/-- C4: the job queue never loses or reorders jobs — at every point the
jobs already started followed by the jobs still queued are exactly the
enqueued jobs in FIFO order; whenever the worker is idle every enqueued
job has been started (N enqueues → N runs); a run's failure has exactly
the same scheduling effect as its success (job K failing never prevents
job K+1 from starting); and each transition starts at most one job, the
started job becoming the unique running one (runs never overlap).
`enqueue` is a total function on the state: it never blocks and never
rejects. -/
theorem processing_queue_fifo (tr : List QAction) :
    ((qrun tr).started ++ (qrun tr).queue = enqueuedOf tr) ∧
    ((qrun tr).running = none → (qrun tr).started = enqueuedOf tr) ∧
    (∀ pre post ok, qrun (pre ++ QAction.finish ok :: post) =
      qrun (pre ++ QAction.finish true :: post)) ∧
    (∀ s a, (qstep s a).started = s.started ∨
      ∃ w, (qstep s a).started = s.started ++ [w] ∧ (qstep s a).running = some w) := by
  have hmain := qrun_aux tr qinit (fun _ => rfl)
  refine ⟨by simpa [qrun, qinit] using hmain.1, ?_, ?_, ?_⟩
  · intro hnone
    have hq := hmain.2 hnone
    have h1 := hmain.1
    rw [hq] at h1
    simpa [qrun, qinit] using h1
  · intro pre post ok
    have hstep : ∀ s : QueueState, qstep s (QAction.finish ok) =
        qstep s (QAction.finish true) := fun s => rfl
    unfold qrun
    rw [List.foldl_append, List.foldl_append, List.foldl_cons, List.foldl_cons, hstep]
  · intro s a
    cases a with
    | enqueue v =>
      cases hrun : s.running with
      | none =>
        cases hq : s.queue with
        | nil => exact Or.inr ⟨v, by simp [qstep, addToQueue, startNext, hrun, hq]⟩
        | cons x rest => exact Or.inr ⟨x, by simp [qstep, addToQueue, startNext, hrun, hq]⟩
      | some w => exact Or.inl (by simp [qstep, addToQueue, hrun])
    | finish ok =>
      cases hrun : s.running with
      | none => exact Or.inl (by simp [qstep, finishCurrent, hrun])
      | some w =>
        cases hq : s.queue with
        | nil => exact Or.inl (by simp [qstep, finishCurrent, startNext, hrun, hq])
        | cons x rest =>
          exact Or.inr ⟨x, by simp [qstep, finishCurrent, startNext, hrun, hq]⟩

/-- Witness for C4: a concrete trace — two enqueues while busy, the
first job failing — still starts both jobs in FIFO order. -/
theorem processing_queue_fifo_witness :
    (qrun [QAction.enqueue 1, QAction.enqueue 2, QAction.finish false,
      QAction.finish true]).started =
      enqueuedOf [QAction.enqueue 1, QAction.enqueue 2, QAction.finish false,
        QAction.finish true] ∧
    enqueuedOf [QAction.enqueue 1, QAction.enqueue 2, QAction.finish false,
      QAction.finish true] = [1, 2] :=
  ⟨(processing_queue_fifo [QAction.enqueue 1, QAction.enqueue 2, QAction.finish false,
      QAction.finish true]).2.1 (by decide), by decide⟩

/-! ### Pipeline progress accounting
(backend/src/services/videoProcessing.service.js, `processVideo`)

`processVideo` reports fixed checkpoints 10, 40, 60, 70, 70, 100 and, for
the transcode, thumbnail and sensitivity stages, maps each internal stage
percentage `p` (a JavaScript number, modelled as ℚ) to
`base + Math.floor(p * weight/100)` before reporting it.  The full report
sequence of a successful run, as a function of the three stages' internal
progress sequences, is `processVideoProgress`. -/

def stageReports (base : ℤ) (w : ℚ) (ps : List ℚ) : List ℤ :=
  ps.map fun p => base + ⌊p * w⌋

def processVideoProgress (t th sv : List ℚ) : List ℤ :=
  [10] ++ stageReports 10 (3/10) t ++ [40] ++ stageReports 40 (2/10) th
    ++ [60, 70, 70] ++ stageReports 70 (2/10) sv ++ [100]

theorem stageReports_pairwise (base : ℤ) (w : ℚ) (hw : 0 ≤ w) (ps : List ℚ)
    (hc : List.Chain' (· ≤ ·) ps) :
    List.Pairwise (· ≤ ·) (stageReports base w ps) := by
  unfold stageReports
  rw [List.pairwise_map]
  exact (List.chain'_iff_pairwise.mp hc).imp fun h =>
    add_le_add_left (Int.floor_le_floor (mul_le_mul_of_nonneg_right h hw)) base

theorem stageReports_band (base : ℤ) (w : ℚ) (hi : ℤ) (hw : 0 ≤ w)
    (hcap : (100 : ℚ) * w ≤ (hi : ℚ)) (ps : List ℚ)
    (h01 : ∀ p ∈ ps, 0 ≤ p ∧ p ≤ 100) :
    ∀ x ∈ stageReports base w ps, base ≤ x ∧ x ≤ base + hi := by
  intro x hx
  unfold stageReports at hx
  obtain ⟨p, hp, rfl⟩ := List.mem_map.mp hx
  have h0 : (0 : ℤ) ≤ ⌊p * w⌋ := Int.floor_nonneg.mpr (mul_nonneg (h01 p hp).1 hw)
  have hup : ⌊p * w⌋ ≤ hi := by
    calc ⌊p * w⌋ ≤ ⌊(hi : ℚ)⌋ :=
          Int.floor_le_floor (le_trans (mul_le_mul_of_nonneg_right (h01 p hp).2 hw) hcap)
    _ = hi := Int.floor_intCast hi
  omega

/-- C6: for every successful pipeline run (with each stage's internal
progress sequence non-decreasing and within 0–100), the reported overall
percentages are monotonically non-decreasing, the sequence ends with 100
and only its final entry reaches 100, and each stage's internal progress
is mapped into its fixed weight band: transcode reports lie in [10, 40]
(weight 30 after the 10% initialization), thumbnail reports in [40, 60]
(weight 20), sensitivity reports in [70, 90] (weight 20, after the 10%
metadata band ending at 70), finalize taking the last 10% up to 100 — and
50% internal transcode progress is reported as 10 + 15 = 25. -/
theorem pipeline_progress_spec (t th sv : List ℚ)
    (htc : List.Chain' (· ≤ ·) t) (htb : ∀ p ∈ t, 0 ≤ p ∧ p ≤ 100)
    (hthc : List.Chain' (· ≤ ·) th) (hthb : ∀ p ∈ th, 0 ≤ p ∧ p ≤ 100)
    (hsvc : List.Chain' (· ≤ ·) sv) (hsvb : ∀ p ∈ sv, 0 ≤ p ∧ p ≤ 100) :
    List.Chain' (· ≤ ·) (processVideoProgress t th sv) ∧
    (processVideoProgress t th sv).getLast? = some 100 ∧
    (∀ x ∈ (processVideoProgress t th sv).dropLast, x < 100) ∧
    (∀ x ∈ stageReports 10 (3/10) t, 10 ≤ x ∧ x ≤ 40) ∧
    (∀ x ∈ stageReports 40 (2/10) th, 40 ≤ x ∧ x ≤ 60) ∧
    (∀ x ∈ stageReports 70 (2/10) sv, 70 ≤ x ∧ x ≤ 90) ∧
    stageReports 10 (3/10) [50] = [25] := by
  have hA := stageReports_band 10 (3/10) 30 (by norm_num) (by norm_num) t htb
  have hB := stageReports_band 40 (2/10) 20 (by norm_num) (by norm_num) th hthb
  have hC := stageReports_band 70 (2/10) 20 (by norm_num) (by norm_num) sv hsvb
  have hApw := stageReports_pairwise 10 (3/10) (by norm_num) t htc
  have hBpw := stageReports_pairwise 40 (2/10) (by norm_num) th hthc
  have hCpw := stageReports_pairwise 70 (2/10) (by norm_num) sv hsvc
  refine ⟨?_, ?_, ?_, fun x hx => ⟨(hA x hx).1, (hA x hx).2⟩,
    fun x hx => ⟨(hB x hx).1, (hB x hx).2⟩,
    fun x hx => ⟨(hC x hx).1, (hC x hx).2⟩, ?_⟩
  · rw [List.chain'_iff_pairwise]
    have hP1 : List.Pairwise (· ≤ ·) (stageReports 70 (2/10) sv ++ [100]) := by
      rw [List.pairwise_append]
      refine ⟨hCpw, List.pairwise_singleton _ _, fun x hx y hy => ?_⟩
      simp only [List.mem_singleton] at hy
      subst hy
      have := hC x hx
      omega
    have hM1 : ∀ y ∈ stageReports 70 (2/10) sv ++ [100], (70 : ℤ) ≤ y := by
      intro y hy
      rcases List.mem_append.mp hy with h | h
      · exact (hC y h).1
      · simp only [List.mem_singleton] at h
        omega
    have h70 : ∀ y ∈ (70 : ℤ) :: (stageReports 70 (2/10) sv ++ [100]),
        (70 : ℤ) ≤ y := by
      intro y hy
      rcases List.mem_cons.mp hy with rfl | hy
      · omega
      · exact hM1 y hy
    have h60 : ∀ y ∈ (70 : ℤ) :: 70 :: (stageReports 70 (2/10) sv ++ [100]),
        (60 : ℤ) ≤ y := by
      intro y hy
      rcases List.mem_cons.mp hy with rfl | hy
      · omega
      · exact le_trans (by omega) (h70 y hy)
    have hP2 : List.Pairwise (· ≤ ·)
        ((60 : ℤ) :: 70 :: 70 :: (stageReports 70 (2/10) sv ++ [100])) :=
      List.Pairwise.cons h60 (List.Pairwise.cons h70 (List.Pairwise.cons hM1 hP1))
    have hM2 : ∀ y ∈ (60 : ℤ) :: 70 :: 70 :: (stageReports 70 (2/10) sv ++ [100]),
        (60 : ℤ) ≤ y := by
      intro y hy
      simp only [List.mem_cons] at hy
      rcases hy with rfl | rfl | rfl | hy
      · omega
      · omega
      · omega
      · have := hM1 y hy; omega
    have hP3 : List.Pairwise (· ≤ ·) (stageReports 40 (2/10) th
        ++ (60 : ℤ) :: 70 :: 70 :: (stageReports 70 (2/10) sv ++ [100])) := by
      rw [List.pairwise_append]
      refine ⟨hBpw, hP2, fun x hx y hy => ?_⟩
      have h1 := (hB x hx).2
      have h2 := hM2 y hy
      omega
    have hM3 : ∀ y ∈ stageReports 40 (2/10) th
        ++ (60 : ℤ) :: 70 :: 70 :: (stageReports 70 (2/10) sv ++ [100]),
        (40 : ℤ) ≤ y := by
      intro y hy
      rcases List.mem_append.mp hy with h | h
      · exact (hB y h).1
      · have := hM2 y h; omega
    have hP4 : List.Pairwise (· ≤ ·) ((40 : ℤ) :: (stageReports 40 (2/10) th
        ++ (60 : ℤ) :: 70 :: 70 :: (stageReports 70 (2/10) sv ++ [100]))) :=
      List.Pairwise.cons hM3 hP3
    have hM4 : ∀ y ∈ (40 : ℤ) :: (stageReports 40 (2/10) th
        ++ (60 : ℤ) :: 70 :: 70 :: (stageReports 70 (2/10) sv ++ [100])),
        (40 : ℤ) ≤ y := by
      intro y hy
      simp only [List.mem_cons] at hy
      rcases hy with rfl | hy
      · omega
      · exact hM3 y hy
    have hP5 : List.Pairwise (· ≤ ·) (stageReports 10 (3/10) t
        ++ (40 : ℤ) :: (stageReports 40 (2/10) th
          ++ (60 : ℤ) :: 70 :: 70 :: (stageReports 70 (2/10) sv ++ [100]))) := by
      rw [List.pairwise_append]
      refine ⟨hApw, hP4, fun x hx y hy => ?_⟩
      have h1 := (hA x hx).2
      have h2 := hM4 y hy
      omega
    have hP6 : List.Pairwise (· ≤ ·) ((10 : ℤ) :: (stageReports 10 (3/10) t
        ++ (40 : ℤ) :: (stageReports 40 (2/10) th
          ++ (60 : ℤ) :: 70 :: 70 :: (stageReports 70 (2/10) sv ++ [100])))) := by
      refine List.Pairwise.cons ?_ hP5
      intro y hy
      rcases List.mem_append.mp hy with h | h
      · exact le_trans (by omega) (hA y h).1
      · exact le_trans (by omega) (hM4 y h)
    unfold processVideoProgress
    simpa [List.append_assoc] using hP6
  · unfold processVideoProgress
    exact List.getLast?_concat _
  · unfold processVideoProgress
    intro x hx
    rw [List.dropLast_concat] at hx
    simp only [List.mem_append, List.mem_singleton, List.mem_cons,
      List.not_mem_nil, or_false] at hx
    rcases hx with ((((hx | hx) | hx) | hx) | hx | hx | hx) | hx
    · omega
    · have := hA x hx; omega
    · omega
    · have := hB x hx; omega
    · omega
    · omega
    · omega
    · have := hC x hx; omega
  · unfold stageReports
    norm_num

/-- Witness for C6: concrete internal sequences for the three stages. -/
theorem pipeline_progress_spec_witness :
    (List.Chain' (· ≤ ·) ([0, 50, 100] : List ℚ) ∧
      (∀ p ∈ ([0, 50, 100] : List ℚ), 0 ≤ p ∧ p ≤ 100) ∧
      List.Chain' (· ≤ ·) ([100] : List ℚ) ∧
      (∀ p ∈ ([100] : List ℚ), 0 ≤ p ∧ p ≤ 100) ∧
      List.Chain' (· ≤ ·) ([10, 100] : List ℚ) ∧
      (∀ p ∈ ([10, 100] : List ℚ), 0 ≤ p ∧ p ≤ 100)) ∧
    (List.Chain' (· ≤ ·) (processVideoProgress [0, 50, 100] [100] [10, 100]) ∧
    (processVideoProgress [0, 50, 100] [100] [10, 100]).getLast? = some 100 ∧
    (∀ x ∈ (processVideoProgress [0, 50, 100] [100] [10, 100]).dropLast, x < 100) ∧
    (∀ x ∈ stageReports 10 (3/10) [0, 50, 100], 10 ≤ x ∧ x ≤ 40) ∧
    (∀ x ∈ stageReports 40 (2/10) [100], 40 ≤ x ∧ x ≤ 60) ∧
    (∀ x ∈ stageReports 70 (2/10) [10, 100], 70 ≤ x ∧ x ≤ 90) ∧
    stageReports 10 (3/10) [50] = [25]) := by
  have hc1 : List.Chain' (· ≤ ·) ([0, 50, 100] : List ℚ) :=
    List.Chain.cons (by decide) (List.Chain.cons (by decide) List.Chain.nil)
  have hc2 : List.Chain' (· ≤ ·) ([100] : List ℚ) := List.Chain.nil
  have hc3 : List.Chain' (· ≤ ·) ([10, 100] : List ℚ) :=
    List.Chain.cons (by decide) List.Chain.nil
  have hb1 : ∀ p ∈ ([0, 50, 100] : List ℚ), 0 ≤ p ∧ p ≤ 100 := by decide
  have hb2 : ∀ p ∈ ([100] : List ℚ), 0 ≤ p ∧ p ≤ 100 := by decide
  have hb3 : ∀ p ∈ ([10, 100] : List ℚ), 0 ≤ p ∧ p ≤ 100 := by decide
  exact ⟨⟨hc1, hb1, hc2, hb2, hc3, hb3⟩,
    pipeline_progress_spec [0, 50, 100] [100] [10, 100] hc1 hb1 hc2 hb2 hc3 hb3⟩

/-! ### Pipeline failure semantics
(backend/src/services/videoProcessing.service.js, `processVideo`)

`processVideo` is modelled over an environment describing the record
fetched from the store and the success of each external-engine call; the
result records whether the returned promise rejected, the status
persisted on the record, and which `deleteFile` calls the catch-block
cleanup made.  The cleanup re-fetches the record and calls `deleteFile`
on `video.processedFilePath` and `video.thumbnailPath` when those record
fields are set; it never references `originalFilePath`, and it never
references the just-produced on-disk artifact paths (the `processedPath`
and `thumbnailPath` locals), which are only persisted onto the record
after all stages succeed.  The sensitivity stage delegates to
`processSensitivityCheck`, whose own catch block swallows every engine
error (`sensEngineOk = false`) and returns the safe default, so that
stage never rejects. -/

structure PipelineEnv where
  record : Option VideoRec
  originalOnDisk : Bool
  transcodeOk : Bool
  thumbnailOk : Bool
  metadataOk : Bool
  sensEngineOk : Bool
  sensFrames : List FrameAnalysis
deriving DecidableEq

/-- `producedDerivative`/`producedThumbnail` record which on-disk
artifacts this run wrote at the `processedPath`/`thumbnailPath` locals
(a stage that completes has written its artifact); the `deleted*` flags
record the `deleteFile` calls of the catch-block cleanup, which reads
only the re-fetched record's fields. -/
structure PipelineResult where
  errored : Bool
  finalStatus : Option VStatus
  producedDerivative : Bool
  producedThumbnail : Bool
  deletedDerivative : Bool
  deletedThumbnail : Bool
  deletedOriginal : Bool
  sensRes : Option SensResult
deriving DecidableEq

/-- The catch block of `processVideo`: mark the record failed and delete
`video.processedFilePath` / `video.thumbnailPath` when present on the
re-fetched record.  The artifacts produced by the failing run itself
(`producedD`, `producedT`) do not flow into the deletions: the code
never references the local artifact paths in the cleanup. -/
def pipelineFailResult (v : VideoRec) (producedD producedT : Bool) :
    PipelineResult :=
  { errored := true, finalStatus := some VStatus.failed,
    producedDerivative := producedD, producedThumbnail := producedT,
    deletedDerivative := v.processedFilePath.isSome,
    deletedThumbnail := v.thumbnailPath.isSome,
    deletedOriginal := false, sensRes := none }

def processVideo (env : PipelineEnv) : PipelineResult :=
  match env.record with
  | none =>
    { errored := true, finalStatus := none, producedDerivative := false,
      producedThumbnail := false, deletedDerivative := false,
      deletedThumbnail := false, deletedOriginal := false, sensRes := none }
  | some v =>
    if env.originalOnDisk = false then pipelineFailResult v false false
    else if env.transcodeOk = false then pipelineFailResult v false false
    else if env.thumbnailOk = false then pipelineFailResult v true false
    else if env.metadataOk = false then pipelineFailResult v true true
    else
      let sres := processSensitivityCheck env.sensEngineOk env.sensFrames
      { errored := false,
        finalStatus := some (if sres.flagged then VStatus.flagged else VStatus.safe),
        producedDerivative := true, producedThumbnail := true,
        deletedDerivative := false, deletedThumbnail := false,
        deletedOriginal := false, sensRes := some sres }

/-- A freshly uploaded record: no derivative or thumbnail persisted yet. -/
def freshRec : VideoRec :=
  { tenantId := 1, status := VStatus.uploaded, processedFilePath := none,
    thumbnailPath := none, originalFilePath := some ⟨0, "mp4"⟩,
    mimeType := none, sensitivityLevel := none, duration := none,
    processingProgress := 0 }

/-- A run on a fresh record in which every stage succeeds except the
external engine inside the sensitivity scan. -/
def sensFailEnv : PipelineEnv :=
  { record := some freshRec, originalOnDisk := true, transcodeOk := true,
    thumbnailOk := true, metadataOk := true, sensEngineOk := false,
    sensFrames := [] }

/-- A run on a fresh record in which the transcode succeeds (the
derivative is written to disk) and the thumbnail stage then throws. -/
def thumbFailEnv : PipelineEnv :=
  { record := some freshRec, originalOnDisk := true, transcodeOk := true,
    thumbnailOk := false, metadataOk := true, sensEngineOk := true,
    sensFrames := [] }

/-- Counterexample to C5 as stated, in both of its failing parts.
First, an external-engine failure in the sensitivity stage does NOT
abort the pipeline and does NOT set status `failed` —
`processSensitivityCheck` swallows the error and returns the safe
default, so that run completes with status `safe`.  Second, on a
first-run failure (thumbnail stage throws after the transcode wrote the
derivative to disk) the partially-produced derivative is NOT deleted:
the cleanup reads `video.processedFilePath`, which is only persisted
after every stage succeeds, so no `deleteFile` call targets the
just-produced artifact. -/
theorem pipeline_failure_counterexamples :
    (sensFailEnv.sensEngineOk = false ∧
     (processVideo sensFailEnv).errored = false ∧
     (processVideo sensFailEnv).finalStatus = some VStatus.safe ∧
     (processVideo sensFailEnv).finalStatus ≠ some VStatus.failed) ∧
    ((processVideo thumbFailEnv).errored = true ∧
     (processVideo thumbFailEnv).finalStatus = some VStatus.failed ∧
     (processVideo thumbFailEnv).producedDerivative = true ∧
     (processVideo thumbFailEnv).deletedDerivative = false ∧
     (processVideo thumbFailEnv).deletedThumbnail = false) := by
  refine ⟨⟨rfl, rfl, rfl, ?_⟩, rfl, rfl, rfl, rfl, rfl⟩
  decide

/-- C5 (amended): whenever a stage that can throw does throw — the
record/original-file check, transcode, thumbnail or metadata stage — the
pipeline aborts with status `failed` and the original file is never
deleted; the cleanup, however, only deletes the derivative and thumbnail
paths already recorded on the re-fetched record, so the artifacts the
failing run itself produced on disk — never yet recorded on a first
run — are left behind (in particular, after a successful transcode on a
record with no recorded derivative path, the produced derivative is not
deleted).  An external-engine failure inside the sensitivity scan, by
contrast, never aborts the pipeline: the scorer returns the safe default
and the run completes with status `safe`. -/
theorem pipeline_failure_semantics (env : PipelineEnv) (v : VideoRec)
    (hrec : env.record = some v)
    (hfail : env.originalOnDisk = false ∨ env.transcodeOk = false ∨
      env.thumbnailOk = false ∨ env.metadataOk = false) :
    ((processVideo env).errored = true ∧
     (processVideo env).finalStatus = some VStatus.failed ∧
     (processVideo env).deletedDerivative = v.processedFilePath.isSome ∧
     (processVideo env).deletedThumbnail = v.thumbnailPath.isSome ∧
     (processVideo env).deletedOriginal = false) ∧
    (env.originalOnDisk = true → env.transcodeOk = true →
      v.processedFilePath = none →
      (processVideo env).producedDerivative = true ∧
      (processVideo env).deletedDerivative = false) ∧
    (∀ env2 : PipelineEnv, ∀ v2 : VideoRec, env2.record = some v2 →
      env2.originalOnDisk = true → env2.transcodeOk = true →
      env2.thumbnailOk = true → env2.metadataOk = true →
      env2.sensEngineOk = false →
      (processVideo env2).errored = false ∧
      (processVideo env2).finalStatus = some VStatus.safe ∧
      (processVideo env2).deletedOriginal = false) := by
  refine ⟨?_, ?_, ?_⟩
  · unfold processVideo
    rw [hrec]
    cases ho : env.originalOnDisk with
    | false => simp [pipelineFailResult]
    | true =>
      cases ht : env.transcodeOk with
      | false => simp [pipelineFailResult]
      | true =>
        cases hth : env.thumbnailOk with
        | false => simp [pipelineFailResult]
        | true =>
          cases hm : env.metadataOk with
          | false => simp [pipelineFailResult]
          | true => rcases hfail with h | h | h | h <;> simp_all
  · intro ho ht hnone
    unfold processVideo
    rw [hrec, ho, ht]
    cases hth : env.thumbnailOk with
    | false => simp [pipelineFailResult, hnone]
    | true =>
      cases hm : env.metadataOk with
      | false => simp [pipelineFailResult, hnone]
      | true => simp
  · intro env2 v2 hrec2 h1 h2 h3 h4 h5
    unfold processVideo
    rw [hrec2, h1, h2, h3, h4, h5]
    simp [processSensitivityCheck, safeSensResult]

/-- A record carrying a previously persisted derivative path. -/
def prevDerivRec : VideoRec :=
  { freshRec with processedFilePath := some ⟨7, "mp4"⟩ }

/-- A run on `prevDerivRec` in which the transcode stage fails. -/
def transcodeFailEnv : PipelineEnv :=
  { record := some prevDerivRec, originalOnDisk := true, transcodeOk := false,
    thumbnailOk := true, metadataOk := true, sensEngineOk := true,
    sensFrames := [] }

/-- Witness for C5 (amended): a transcode failure on a record with a
previously persisted derivative path (the recorded path is deleted, the
original never), and a thumbnail failure on a fresh record (the produced
derivative is left behind). -/
theorem pipeline_failure_semantics_witness :
    (transcodeFailEnv.record = some prevDerivRec ∧
     ((processVideo transcodeFailEnv).errored = true ∧
      (processVideo transcodeFailEnv).finalStatus = some VStatus.failed ∧
      (processVideo transcodeFailEnv).deletedDerivative = prevDerivRec.processedFilePath.isSome ∧
      (processVideo transcodeFailEnv).deletedThumbnail = prevDerivRec.thumbnailPath.isSome ∧
      (processVideo transcodeFailEnv).deletedOriginal = false)) ∧
    (thumbFailEnv.record = some freshRec ∧
     freshRec.processedFilePath = none ∧
     ((processVideo thumbFailEnv).producedDerivative = true ∧
      (processVideo thumbFailEnv).deletedDerivative = false)) :=
  ⟨⟨rfl, (pipeline_failure_semantics transcodeFailEnv prevDerivRec rfl
      (Or.inr (Or.inl rfl))).1⟩,
   ⟨rfl, rfl, (pipeline_failure_semantics thumbFailEnv freshRec rfl
      (Or.inr (Or.inr (Or.inl rfl)))).2.1 rfl rfl rfl⟩⟩

/-! ### Streaming responder (stream controller: `parseRange`,
`streamVideo`, `getStreamInfo`)

The `Range` header is processed by the JavaScript regular expression
`bytes=(\d+)-(\d*)` via `String.match` (leftmost match, greedy digit
runs).  `findRangeMatch` implements exactly that search over the
header's characters: at each position it tries to read the literal
`bytes=`, one or more digits, a dash (code point 45) and an optional
digit run. `parseInt` on a digit run is `parseDigits`. -/

def parseDigits (ds : List Char) : Nat :=
  ds.foldl (fun acc c => 10 * acc + (c.toNat - 48)) 0

/-- One attempt of the regex at a fixed position. -/
def matchRangeAt (l : List Char) : Option (Nat × Option Nat) :=
  if l.take 6 = ("bytes=").toList then
    let r := l.drop 6
    let ds := r.takeWhile Char.isDigit
    if ds = [] then none
    else
      match r.dropWhile Char.isDigit with
      | [] => none
      | c :: r2 =>
        if c = Char.ofNat 45 then
          let es := r2.takeWhile Char.isDigit
          some (parseDigits ds, if es = [] then none else some (parseDigits es))
        else none
  else none

/-- Leftmost-match search of the regex over the whole header. -/
def findRangeMatch : List Char → Option (Nat × Option Nat)
  | [] => none
  | c :: cs =>
    match matchRangeAt (c :: cs) with
    | some r => some r
    | none => findRangeMatch cs

/-- `matches[2] ? parseInt(matches[2], 10) : fileSize - 1`: the requested
range end, defaulting to the last byte of the file. -/
def rangeEndOf (e? : Option Nat) (fileSize : Nat) : Int :=
  match e? with
  | some e => (e : Int)
  | none => (fileSize : Int) - 1

/-- `parseRange` from the source: extract the byte range, default the end
to `fileSize - 1`, reject (returning `null`, i.e. `none`) when
`start > end`, `start < 0` or `end >= fileSize`, clamp the end (a no-op
after validation) and return `{start, end, chunkSize}`. -/
def parseRange (rangeHeader : Option String) (fileSize : Nat) :
    Option (Nat × Nat × Nat) :=
  match rangeHeader with
  | none => none
  | some h =>
    match findRangeMatch h.toList with
    | none => none
    | some (s, e?) =>
      let start : Int := (s : Int)
      let endV : Int := rangeEndOf e? fileSize
      if start > endV ∨ start < 0 ∨ endV ≥ (fileSize : Int) then none
      else
        let endC := min endV ((fileSize : Int) - 1)
        let chunkSize := endC - start + 1
        some (start.toNat, endC.toNat, chunkSize.toNat)

/-- A credential as the streaming path sees it after `jwt.verify`: either
a valid token carrying a tenant id, or an invalid one. -/
inductive Tok where
  | valid (tenantId : Nat)
  | invalid
deriving DecidableEq

structure StreamReq where
  videoId : Nat
  queryToken : Option Tok
  headerToken : Option Tok
  rangeHeader : Option String
deriving DecidableEq

/-- `verifyToken`: prefer the query-parameter token over the
Authorization header, then verify it. -/
def verifyToken (req : StreamReq) : Option Nat :=
  match req.queryToken with
  | some t =>
    match t with
    | Tok.valid tid => some tid
    | Tok.invalid => none
  | none =>
    match req.headerToken with
    | some t =>
      match t with
      | Tok.valid tid => some tid
      | Tok.invalid => none
    | none => none

/-- `Video.findOne(tenantQuery(tenantId, { _id: videoId }))`: the first
record whose id and tenant both match. -/
def findVideo (db : List (Nat × VideoRec)) (tenantId videoId : Nat) :
    Option VideoRec :=
  (db.find? fun p => decide (p.1 = videoId) && decide (p.2.tenantId = tenantId)).map
    Prod.snd

/-- The file system as a path-to-byte-content map; `fs.existsSync` is
definedness and `fs.statSync(..).size` is the content length. -/
def fsLookup (fsys : List (FPath × List Nat)) (p : FPath) : Option (List Nat) :=
  (fsys.find? fun q => decide (q.1 = p)).map Prod.snd

/-- The extension table of `getMimeType` (extensions already lowercased,
as `path.extname(..).toLowerCase()` produces them). -/
def mimeTypes : List (String × String) :=
  [(".mp4", "video/mp4"), (".mkv", "video/x-matroska"),
   (".avi", "video/x-msvideo"), (".webm", "video/webm"),
   (".mov", "video/quicktime")]

def getMimeType (p : FPath) : String :=
  ((mimeTypes.find? fun q => decide (q.1 = p.ext)).map Prod.snd).getD ("video/mp4")

/-- `video.processedFilePath || video.originalFilePath`. -/
def selectFilePath (v : VideoRec) : Option FPath :=
  match v.processedFilePath with
  | some p => some p
  | none => v.originalFilePath

/-- `video.mimeType || getMimeType(filePath)`. -/
def mimeOf (v : VideoRec) (fp : FPath) : String :=
  match v.mimeType with
  | some m => m
  | none => getMimeType fp

/-- The `Content-Range` header value `bytes start-end/size`. -/
def contentRangeVal (s e : Int) (size : Nat) : String :=
  ("bytes ") ++ toString s ++ ("-") ++ toString e ++ ("/") ++ toString size

/-- The observable outcomes of `streamVideo`: the thrown error classes
(401 UnauthorizedError, 404 NotFoundError for record and file, 403
ForbiddenError for a not-ready record), or a byte response with its
status code, headers and body. -/
inductive StreamRes where
  | unauthorized
  | videoNotFound
  | notReady
  | fileNotFound
  | ok (statusCode : Nat) (contentType : String) (acceptRanges : String)
      (contentRange : String) (contentLength : Nat) (body : List Nat)
deriving DecidableEq

def streamVideo (db : List (Nat × VideoRec)) (fsys : List (FPath × List Nat))
    (req : StreamReq) : StreamRes :=
  match verifyToken req with
  | none => StreamRes.unauthorized
  | some tenantId =>
    match findVideo db tenantId req.videoId with
    | none => StreamRes.videoNotFound
    | some video =>
      if video.status = VStatus.uploaded ∨ video.status = VStatus.processing then
        StreamRes.notReady
      else
        match selectFilePath video with
        | none => StreamRes.fileNotFound
        | some filePath =>
          match fsLookup fsys filePath with
          | none => StreamRes.fileNotFound
          | some content =>
            let fileSize := content.length
            let mimeType := mimeOf video filePath
            match parseRange req.rangeHeader fileSize with
            | none =>
              StreamRes.ok 200 mimeType ("bytes")
                (contentRangeVal 0 ((fileSize : Int) - 1) fileSize) fileSize content
            | some (s, e, chunk) =>
              StreamRes.ok 206 mimeType ("bytes")
                (contentRangeVal (s : Int) (e : Int) fileSize) chunk
                ((content.drop s).take chunk)

/-- The observable outcomes of `getStreamInfo` (the HEAD variant): it
answers with JSON errors rather than thrown errors, and has no
ready-status check. -/
inductive InfoRes where
  | unauthorized
  | videoNotFound
  | fileNotFound
  | ok (statusCode : Nat) (contentType : String) (acceptRanges : String)
      (contentLength : Nat)
deriving DecidableEq

def getStreamInfo (db : List (Nat × VideoRec)) (fsys : List (FPath × List Nat))
    (req : StreamReq) : InfoRes :=
  match verifyToken req with
  | none => InfoRes.unauthorized
  | some tenantId =>
    match findVideo db tenantId req.videoId with
    | none => InfoRes.videoNotFound
    | some video =>
      match selectFilePath video with
      | none => InfoRes.fileNotFound
      | some filePath =>
        match fsLookup fsys filePath with
        | none => InfoRes.fileNotFound
        | some content =>
          InfoRes.ok 200 (mimeOf video filePath) ("bytes") content.length

/-! ### Decimal rendering of byte offsets

To state C2/C3 over actual `Range` header strings we render numbers in
decimal: `natDigits n` is the digit-character list of `n` (structural in
a fuel argument so the kernel can evaluate it), and `mkRangeHeader`
builds the header `bytes=<start>-<end>`. -/

def natDigitsAux (fuel n : Nat) : List Char :=
  match fuel with
  | 0 => []
  | fuel + 1 =>
    if n < 10 then [Char.ofNat (48 + n)]
    else natDigitsAux fuel (n / 10) ++ [Char.ofNat (48 + n % 10)]

def natDigits (n : Nat) : List Char := natDigitsAux (n + 1) n

def mkRangeHeader (s : Nat) (e? : Option Nat) : String :=
  String.mk (("bytes=").toList ++ natDigits s ++ Char.ofNat 45 ::
    (match e? with
     | some e => natDigits e
     | none => []))

theorem digitChar_toNat (d : Nat) (h : d < 10) : (Char.ofNat (48 + d)).toNat = 48 + d := by
  interval_cases d <;> decide

theorem digitChar_isDigit (d : Nat) (h : d < 10) :
    (Char.ofNat (48 + d)).isDigit = true := by
  interval_cases d <;> decide

theorem natDigitsAux_all_digits (fuel : Nat) : ∀ n, ∀ c ∈ natDigitsAux fuel n,
    c.isDigit = true := by
  induction fuel with
  | zero => intro n c hc; simp [natDigitsAux] at hc
  | succ fuel ih =>
    intro n c hc
    rw [natDigitsAux] at hc
    by_cases h : n < 10
    · rw [if_pos h] at hc
      simp only [List.mem_singleton] at hc
      subst hc
      exact digitChar_isDigit n h
    · rw [if_neg h] at hc
      rcases List.mem_append.mp hc with h2 | h2
      · exact ih (n / 10) c h2
      · simp only [List.mem_singleton] at h2
        subst h2
        exact digitChar_isDigit (n % 10) (Nat.mod_lt n (by omega))

theorem natDigits_all_digits (n : Nat) : ∀ c ∈ natDigits n, c.isDigit = true :=
  natDigitsAux_all_digits (n + 1) n

theorem natDigitsAux_ne_nil (fuel n : Nat) (h : n < fuel) :
    natDigitsAux fuel n ≠ [] := by
  match fuel with
  | fuel + 1 =>
    rw [natDigitsAux]
    by_cases h10 : n < 10
    · rw [if_pos h10]; simp
    · rw [if_neg h10]; simp

theorem natDigits_ne_nil (n : Nat) : natDigits n ≠ [] :=
  natDigitsAux_ne_nil (n + 1) n (by omega)

theorem parseDigits_append (xs : List Char) (c : Char) :
    parseDigits (xs ++ [c]) = 10 * parseDigits xs + (c.toNat - 48) := by
  simp [parseDigits, List.foldl_append]

theorem parseDigits_natDigitsAux (fuel : Nat) : ∀ n, n < fuel →
    parseDigits (natDigitsAux fuel n) = n := by
  induction fuel with
  | zero => intro n h; omega
  | succ fuel ih =>
    intro n h
    rw [natDigitsAux]
    by_cases h10 : n < 10
    · rw [if_pos h10]
      simp [parseDigits, digitChar_toNat n h10]
    · rw [if_neg h10]
      have hdiv : n / 10 < fuel := by
        have h1 : n / 10 < n := Nat.div_lt_self (by omega) (by omega)
        omega
      rw [parseDigits_append, ih (n / 10) hdiv,
        digitChar_toNat (n % 10) (Nat.mod_lt n (by omega))]
      omega

theorem parseDigits_natDigits (n : Nat) : parseDigits (natDigits n) = n :=
  parseDigits_natDigitsAux (n + 1) n (by omega)

theorem takeWhile_append_not (p : Char → Bool) (xs : List Char) (y : Char)
    (rest : List Char) (hxs : ∀ x ∈ xs, p x = true) (hy : p y = false) :
    (xs ++ y :: rest).takeWhile p = xs ∧ (xs ++ y :: rest).dropWhile p = y :: rest := by
  induction xs with
  | nil => simp [List.takeWhile_cons, List.dropWhile_cons, hy]
  | cons x xs ih =>
    have hx : p x = true := hxs x (by simp)
    have ih2 := ih fun z hz => hxs z (by simp [hz])
    simp [List.takeWhile_cons, List.dropWhile_cons, hx, ih2.1, ih2.2]

theorem takeWhile_all (p : Char → Bool) (xs : List Char)
    (hxs : ∀ x ∈ xs, p x = true) : xs.takeWhile p = xs := by
  induction xs with
  | nil => rfl
  | cons x xs ih =>
    simp [List.takeWhile_cons, hxs x (by simp), ih fun z hz => hxs z (by simp [hz])]

theorem matchRangeAt_core (s : Nat) (tail : List Char) :
    matchRangeAt (("bytes=").toList ++ (natDigits s ++ Char.ofNat 45 :: tail)) =
      some (s,
        if tail.takeWhile Char.isDigit = [] then none
        else some (parseDigits (tail.takeWhile Char.isDigit))) := by
  have hblen : (("bytes=").toList).length = 6 := by decide
  have htk := takeWhile_append_not Char.isDigit (natDigits s) (Char.ofNat 45) tail
    (natDigits_all_digits s) (by decide)
  unfold matchRangeAt
  dsimp only
  rw [List.take_left' hblen, if_pos rfl, List.drop_left' hblen, htk.1, htk.2,
    if_neg (natDigits_ne_nil s)]
  dsimp only
  rw [if_pos rfl, parseDigits_natDigits]

theorem matchRangeAt_mk (s : Nat) (e? : Option Nat) :
    matchRangeAt (mkRangeHeader s e?).toList = some (s, e?) := by
  cases e? with
  | some e =>
    have hlist : (mkRangeHeader s (some e)).toList =
        ("bytes=").toList ++ (natDigits s ++ Char.ofNat 45 :: natDigits e) := by
      show ("bytes=").toList ++ natDigits s ++ Char.ofNat 45 :: natDigits e = _
      rw [List.append_assoc]
    rw [hlist, matchRangeAt_core]
    rw [takeWhile_all Char.isDigit (natDigits e) (natDigits_all_digits e),
      if_neg (natDigits_ne_nil e), parseDigits_natDigits]
  | none =>
    have hlist : (mkRangeHeader s none).toList =
        ("bytes=").toList ++ (natDigits s ++ Char.ofNat 45 :: []) := by
      show ("bytes=").toList ++ natDigits s ++ Char.ofNat 45 :: [] = _
      rw [List.append_assoc]
    rw [hlist, matchRangeAt_core]
    simp

theorem findRangeMatch_of_matchAt (l : List Char) (r : Nat × Option Nat)
    (h : matchRangeAt l = some r) : findRangeMatch l = some r := by
  cases l with
  | nil =>
    rw [show matchRangeAt [] = none from by decide] at h
    cases h
  | cons c cs =>
    unfold findRangeMatch
    rw [h]

theorem findRangeMatch_mk (s : Nat) (e? : Option Nat) :
    findRangeMatch (mkRangeHeader s e?).toList = some (s, e?) :=
  findRangeMatch_of_matchAt _ _ (matchRangeAt_mk s e?)

theorem parseRange_mk_some (s e fileSize : Nat) (hse : s ≤ e) (hef : e < fileSize) :
    parseRange (some (mkRangeHeader s (some e))) fileSize = some (s, e, e - s + 1) := by
  simp only [parseRange, findRangeMatch_mk s (some e), rangeEndOf]
  rw [if_neg (by omega)]
  have hmin : min ((e : Nat) : Int) ((fileSize : Int) - 1) = (e : Int) :=
    min_eq_left (by omega)
  rw [hmin]
  have h1 : ((s : Nat) : Int).toNat = s := Int.toNat_natCast s
  have h2 : ((e : Nat) : Int).toNat = e := Int.toNat_natCast e
  have h3 : (((e : Nat) : Int) - ((s : Nat) : Int) + 1).toNat = e - s + 1 := by omega
  rw [h1, h2, h3]

theorem parseRange_mk_none (s fileSize : Nat) (hs : s < fileSize) :
    parseRange (some (mkRangeHeader s none)) fileSize =
      some (s, fileSize - 1, fileSize - s) := by
  simp only [parseRange, findRangeMatch_mk s none, rangeEndOf]
  rw [if_neg (by omega)]
  have hmin : min ((fileSize : Int) - 1) ((fileSize : Int) - 1) = (fileSize : Int) - 1 :=
    min_self _
  rw [hmin]
  have h1 : ((s : Nat) : Int).toNat = s := Int.toNat_natCast s
  have h2 : ((fileSize : Int) - 1).toNat = fileSize - 1 := by omega
  have h3 : ((fileSize : Int) - 1 - ((s : Nat) : Int) + 1).toNat = fileSize - s := by omega
  rw [h1, h2, h3]

theorem parseRange_none_iff (h : String) (fileSize : Nat) :
    parseRange (some h) fileSize = none ↔
      (findRangeMatch h.toList = none ∨
       ∃ s e?, findRangeMatch h.toList = some (s, e?) ∧
         ((s : Int) > rangeEndOf e? fileSize ∨ (s : Int) < 0 ∨
           rangeEndOf e? fileSize ≥ (fileSize : Int))) := by
  cases hm : findRangeMatch h.toList with
  | none =>
    simp only [parseRange, hm]
    exact iff_of_true trivial (Or.inl trivial)
  | some r =>
    obtain ⟨s, e?⟩ := r
    simp only [parseRange, hm]
    by_cases hc : ((s : Int) > rangeEndOf e? fileSize ∨ (s : Int) < 0 ∨
        rangeEndOf e? fileSize ≥ (fileSize : Int))
    · rw [if_pos hc]
      exact iff_of_true rfl (Or.inr ⟨s, e?, rfl, hc⟩)
    · rw [if_neg hc]
      refine iff_of_false (by simp) ?_
      rintro (hbad | ⟨s2, e2, heq, hc2⟩)
      · exact absurd hbad (by simp)
      · simp only [Option.some.injEq, Prod.mk.injEq] at heq
        obtain ⟨h1, h2⟩ := heq
        subst h1
        subst h2
        exact hc hc2

theorem parseRange_none_of_start_big (h : String) (s : Nat) (e? : Option Nat)
    (fileSize : Nat) (hm : findRangeMatch h.toList = some (s, e?))
    (hbig : fileSize ≤ s) : parseRange (some h) fileSize = none := by
  simp only [parseRange, hm]
  rw [if_pos]
  cases e? with
  | some e => simp only [rangeEndOf]; omega
  | none => simp only [rangeEndOf]; omega

/-- C2: for every file and every in-bounds range request
`bytes=start-end`, the responder returns 206 with
`Content-Range: bytes start-end/fileSize`,
`Content-Length = end-start+1`, `Accept-Ranges: bytes`, and a body that
is exactly the inclusive span [start, end] of the file, whose length
equals the declared Content-Length; an open-ended `bytes=start-` request
defaults the end to `fileSize-1`. -/
theorem stream_valid_range (db : List (Nat × VideoRec)) (fsys : List (FPath × List Nat))
    (req : StreamReq) (tid : Nat) (video : VideoRec) (fp : FPath)
    (content : List Nat) (s e : Nat)
    (hauth : verifyToken req = some tid)
    (hfind : findVideo db tid req.videoId = some video)
    (hstatus : ¬(video.status = VStatus.uploaded ∨ video.status = VStatus.processing))
    (hpath : selectFilePath video = some fp)
    (hfile : fsLookup fsys fp = some content)
    (hheader : req.rangeHeader = some (mkRangeHeader s (some e)))
    (hse : s ≤ e) (hef : e < content.length) :
    streamVideo db fsys req = StreamRes.ok 206 (mimeOf video fp) ("bytes")
      (contentRangeVal (s : Int) (e : Int) content.length) (e - s + 1)
      ((content.drop s).take (e - s + 1)) ∧
    contentRangeVal (s : Int) (e : Int) content.length =
      ("bytes ") ++ toString s ++ ("-") ++ toString e ++ ("/")
        ++ toString content.length ∧
    ((content.drop s).take (e - s + 1)).length = e - s + 1 ∧
    (∀ i, i < e - s + 1 →
      ((content.drop s).take (e - s + 1))[i]? = content[s + i]?) ∧
    parseRange (some (mkRangeHeader s none)) content.length =
      some (s, content.length - 1, content.length - s) := by
  refine ⟨?_, ?_, ?_, ?_, ?_⟩
  · simp only [streamVideo, hauth, hfind, hpath, hfile, hheader]
    rw [if_neg hstatus, parseRange_mk_some s e content.length hse hef]
  · rfl
  · rw [List.length_take, List.length_drop]
    omega
  · intro i hi
    rw [List.getElem?_take_of_lt hi, List.getElem?_drop]
  · exact parseRange_mk_none s content.length (by omega)

/-- A streamable record whose derivative is on disk. -/
def readyRec : VideoRec :=
  { tenantId := 1, status := VStatus.ready, processedFilePath := some ⟨5, "mp4"⟩,
    thumbnailPath := none, originalFilePath := some ⟨0, "mp4"⟩,
    mimeType := none, sensitivityLevel := none, duration := none,
    processingProgress := 100 }

def db1 : List (Nat × VideoRec) := [(1, readyRec)]

def fsys1 : List (FPath × List Nat) := [(⟨5, "mp4"⟩, [10, 20, 30, 40, 50])]

/-- A valid-token request for bytes 1–3 of video 1. -/
def rangeReq : StreamReq :=
  { videoId := 1, queryToken := some (Tok.valid 1), headerToken := none,
    rangeHeader := some (mkRangeHeader 1 (some 3)) }

/-- Witness for C2: `Range: bytes=1-3` against a 5-byte file. -/
theorem stream_valid_range_witness :
    streamVideo db1 fsys1 rangeReq = StreamRes.ok 206 (mimeOf readyRec ⟨5, "mp4"⟩)
      ("bytes") (contentRangeVal 1 3 5) 3
      ((([10, 20, 30, 40, 50] : List Nat).drop 1).take 3) ∧
    (([10, 20, 30, 40, 50] : List Nat).drop 1).take 3 = [20, 30, 40] :=
  ⟨by
    have h := stream_valid_range db1 fsys1 rangeReq 1 readyRec ⟨5, "mp4"⟩
      [10, 20, 30, 40, 50] 1 3 rfl rfl (by decide) rfl rfl rfl (by decide) (by decide)
    exact h.1, by decide⟩

/-- C3: when the Range header is absent or invalid — invalid exactly when
the pattern does not match, or start > end, or start < 0, or
end ≥ fileSize (in particular whenever start ≥ fileSize) — the responder
serves the full content with HTTP 200,
`Content-Range: bytes 0-(fileSize-1)/fileSize` and
`Content-Length = fileSize`, never a 4xx for the range. -/
theorem stream_invalid_range_full (db : List (Nat × VideoRec))
    (fsys : List (FPath × List Nat)) (req : StreamReq) (tid : Nat)
    (video : VideoRec) (fp : FPath) (content : List Nat)
    (hauth : verifyToken req = some tid)
    (hfind : findVideo db tid req.videoId = some video)
    (hstatus : ¬(video.status = VStatus.uploaded ∨ video.status = VStatus.processing))
    (hpath : selectFilePath video = some fp)
    (hfile : fsLookup fsys fp = some content)
    (hinv : parseRange req.rangeHeader content.length = none) :
    streamVideo db fsys req = StreamRes.ok 200 (mimeOf video fp) ("bytes")
      (contentRangeVal 0 ((content.length : Int) - 1) content.length)
      content.length content ∧
    (∀ h : String, parseRange (some h) content.length = none ↔
      (findRangeMatch h.toList = none ∨
       ∃ s e?, findRangeMatch h.toList = some (s, e?) ∧
         ((s : Int) > rangeEndOf e? content.length ∨ (s : Int) < 0 ∨
           rangeEndOf e? content.length ≥ (content.length : Int)))) ∧
    parseRange none content.length = none ∧
    (∀ h : String, ∀ s e?, findRangeMatch h.toList = some (s, e?) →
      content.length ≤ s → parseRange (some h) content.length = none) := by
  refine ⟨?_, fun h => parseRange_none_iff h content.length, rfl,
    fun h s e? hm hbig => parseRange_none_of_start_big h s e? content.length hm hbig⟩
  simp only [streamVideo, hauth, hfind, hpath, hfile]
  rw [if_neg hstatus, hinv]

/-- An out-of-bounds range request (start beyond the 5-byte file). -/
def oobRangeReq : StreamReq :=
  { videoId := 1, queryToken := some (Tok.valid 1), headerToken := none,
    rangeHeader := some (mkRangeHeader 7 (some 9)) }

/-- Witness for C3: `bytes=7-9` against a 5-byte file falls back to a
full 200 response. -/
theorem stream_invalid_range_full_witness :
    streamVideo db1 fsys1 oobRangeReq = StreamRes.ok 200
      (mimeOf readyRec ⟨5, "mp4"⟩) ("bytes") (contentRangeVal 0 4 5) 5
      [10, 20, 30, 40, 50] ∧
    parseRange oobRangeReq.rangeHeader 5 = none :=
  ⟨by
    have h := stream_invalid_range_full db1 fsys1 oobRangeReq 1 readyRec ⟨5, "mp4"⟩
      [10, 20, 30, 40, 50] rfl rfl (by decide) rfl rfl (by decide)
    exact h.1, by decide⟩

/-- A request with no credential at all. -/
def noTokReq : StreamReq :=
  { videoId := 1, queryToken := none, headerToken := none, rangeHeader := none }

/-- A valid-token request with no Range header for video 1. -/
def validReq : StreamReq :=
  { videoId := 1, queryToken := some (Tok.valid 1), headerToken := none,
    rangeHeader := none }

def db0 : List (Nat × VideoRec) := [(1, freshRec)]

def fsys0 : List (FPath × List Nat) := [(⟨0, "mp4"⟩, [1, 2, 3])]

/-- Counterexample to C7 as stated: for a record in status `uploaded`, a
request without credentials is answered with the authentication error,
not the "not ready" error — the auth check runs first, so the not-ready
error is not returned "regardless of credentials". -/
theorem stream_not_ready_requires_auth :
    freshRec.status = VStatus.uploaded ∧
    streamVideo db0 fsys0 noTokReq = StreamRes.unauthorized ∧
    streamVideo db0 fsys0 noTokReq ≠ StreamRes.notReady := by
  refine ⟨rfl, rfl, ?_⟩
  decide

/-- C7 (amended): for every streaming request for a record in status
`uploaded` or `processing`, no bytes of the file are ever returned: an
authenticated request resolving the record gets the "not ready" error
regardless of its range header, and any request — whatever its
credentials — never gets a byte response. -/
theorem stream_not_ready_no_bytes (db : List (Nat × VideoRec))
    (fsys : List (FPath × List Nat)) (req : StreamReq) (video : VideoRec)
    (hfind : ∀ tid, verifyToken req = some tid →
      findVideo db tid req.videoId = some video)
    (hstatus : video.status = VStatus.uploaded ∨ video.status = VStatus.processing) :
    (∀ tid, verifyToken req = some tid →
      streamVideo db fsys req = StreamRes.notReady) ∧
    (∀ sc ct ar cr cl body,
      streamVideo db fsys req ≠ StreamRes.ok sc ct ar cr cl body) := by
  have hnr : ∀ tid, verifyToken req = some tid →
      streamVideo db fsys req = StreamRes.notReady := by
    intro tid h
    simp only [streamVideo, h, hfind tid h]
    rw [if_pos hstatus]
  refine ⟨hnr, ?_⟩
  intro sc ct ar cr cl body
  cases hv : verifyToken req with
  | none => simp [streamVideo, hv]
  | some tid =>
    rw [hnr tid hv]
    simp

/-- Witness for C7 (amended): an authenticated request for an uploaded
record gets the not-ready error. -/
theorem stream_not_ready_no_bytes_witness :
    streamVideo db0 fsys0 validReq = StreamRes.notReady :=
  (stream_not_ready_no_bytes db0 fsys0 validReq freshRec
    (fun tid h => by
      have h1 : (1 : Nat) = tid := by simpa [verifyToken, validReq] using h
      subst h1
      rfl)
    (Or.inl rfl)).1 1 rfl

/-- C10: the metadata-only HEAD variant performs the same authentication
and tenant-scoped resolution as the GET path (same 401 on a bad
credential, same 404 on an unresolved record) but has no not-ready
check: for a record in status `uploaded` or `processing` whose file
exists, it returns 200 with Content-Type, Accept-Ranges and
Content-Length headers while the GET path returns the not-ready
error. -/
theorem stream_info_no_status_check (db : List (Nat × VideoRec))
    (fsys : List (FPath × List Nat)) (req : StreamReq) (tid : Nat)
    (video : VideoRec) (fp : FPath) (content : List Nat)
    (hauth : verifyToken req = some tid)
    (hfind : findVideo db tid req.videoId = some video)
    (hstatus : video.status = VStatus.uploaded ∨ video.status = VStatus.processing)
    (hpath : selectFilePath video = some fp)
    (hfile : fsLookup fsys fp = some content) :
    getStreamInfo db fsys req =
      InfoRes.ok 200 (mimeOf video fp) ("bytes") content.length ∧
    streamVideo db fsys req = StreamRes.notReady ∧
    (∀ req2 : StreamReq, verifyToken req2 = none →
      getStreamInfo db fsys req2 = InfoRes.unauthorized ∧
      streamVideo db fsys req2 = StreamRes.unauthorized) ∧
    (∀ req2 : StreamReq, ∀ tid2, verifyToken req2 = some tid2 →
      findVideo db tid2 req2.videoId = none →
      getStreamInfo db fsys req2 = InfoRes.videoNotFound ∧
      streamVideo db fsys req2 = StreamRes.videoNotFound) := by
  refine ⟨?_, ?_, ?_, ?_⟩
  · simp only [getStreamInfo, hauth, hfind, hpath, hfile]
  · simp only [streamVideo, hauth, hfind]
    rw [if_pos hstatus]
  · intro req2 h2
    constructor
    · simp only [getStreamInfo, h2]
    · simp only [streamVideo, h2]
  · intro req2 tid2 h2 hnone
    constructor
    · simp only [getStreamInfo, h2, hnone]
    · simp only [streamVideo, h2, hnone]

/-- Witness for C10: HEAD on the uploaded record of `db0` answers 200
with headers while GET answers not-ready. -/
theorem stream_info_no_status_check_witness :
    getStreamInfo db0 fsys0 validReq =
      InfoRes.ok 200 (mimeOf freshRec ⟨0, "mp4"⟩) ("bytes") 3 ∧
    streamVideo db0 fsys0 validReq = StreamRes.notReady :=
  ⟨by
    have h := stream_info_no_status_check db0 fsys0 validReq 1 freshRec ⟨0, "mp4"⟩
      [1, 2, 3] rfl rfl (Or.inl rfl) rfl rfl
    exact h.1,
   by
    have h := stream_info_no_status_check db0 fsys0 validReq 1 freshRec ⟨0, "mp4"⟩
      [1, 2, 3] rfl rfl (Or.inl rfl) rfl rfl
    exact h.2.1⟩

end

end Pulse
